import Mathlib

/-!
# Verification of the Superkernel metric engine

Shallow embedding of the metric kernel of the repository
(`src/core/kernel/superkernel.py`), its zero-dependency variant
(`src/core/kernel/superkernel_zdl.py`) and the control-loop trigger logic
(`src/core/oracle/tace_oracle.py`).

Python floats are modelled as exact rationals (`ℚ`).  The two transcendental
library functions the code calls, `math.exp` and `math.sqrt`, are modelled as
abstract parameters `E S : ℚ → ℚ`; every theorem below either holds for all
choices of `E` and `S` or assumes only the elementary facts it needs about
them (positivity of the exponential, `sqrt 0 = 0`), which the real functions
satisfy.
-/

/-- A sample vector (`Vector = List[float]` in `superkernel.py`). -/
abbrev Vec : Type := List ℚ

/-- `_mean` from `superkernel.py`: sum divided by count, `0.0` on empty input. -/
def pyMean (l : List ℚ) : ℚ :=
  if l.length = 0 then 0 else l.sum / l.length

/-- The Python slice `l[-n:]`: the at most `n` most recent (last) elements of `l`. -/
def truncLast (n : ℕ) (l : List α) : List α :=
  l.drop (l.length - n)

/-- The Python builtin `sorted` on numbers: sort ascending (stable). -/
def sortAsc (l : List ℚ) : List ℚ :=
  l.insertionSort (· ≤ ·)

/-- `_euclidean_distance` from `superkernel.py`, with `S` standing for
`math.sqrt`. -/
def euclideanDistance (S : ℚ → ℚ) (a b : Vec) : ℚ :=
  S (((a.zip b).map (fun p => (p.1 - p.2) ^ 2)).sum)

/-- `_cosine_similarity` from `superkernel.py`: `0.0` when either norm is
zero, else `dot / (norm_a * norm_b)`; `S` stands for `math.sqrt`. -/
def cosineSimilarity (S : ℚ → ℚ) (a b : Vec) : ℚ :=
  let dot := ((a.zip b).map (fun p => p.1 * p.2)).sum
  let na := S ((a.map (fun x => x * x)).sum)
  let nb := S ((b.map (fun y => y * y)).sum)
  if na = 0 ∨ nb = 0 then 0 else dot / (na * nb)

/-- `_centroid` from `superkernel.py`: elementwise mean of the stored
vectors, with the component count taken from the first vector. -/
def centroid (vectors : List Vec) : Vec :=
  match vectors with
  | [] => []
  | v :: vs =>
      (List.range v.length).map
        (fun i => (((v :: vs).map (fun w => w.getD i 0)).sum) / (v :: vs).length)

/-- State of the `Superkernel` dataclass (`superkernel.py`). -/
structure Kernel where
  vectors : List Vec
  losses : List ℚ
  nu : ℚ
  lam : ℚ
  entropyThreshold : ℚ
  interventionCount : ℕ
  phiPow : ℕ

/-- The dataclass defaults: empty history, `nu = 0.8`, `lam = 1.2`,
`entropy_threshold = 0.65`, `intervention_count = 0`, `phi_pow = 17`. -/
def Kernel.init : Kernel :=
  { vectors := [], losses := [], nu := 4/5, lam := 6/5,
    entropyThreshold := 13/20, interventionCount := 0, phiPow := 17 }

/-- `Superkernel.dynamic_cvar(losses, alpha)`: exponentially tilted CVaR.
Per-loss weight `exp(lam * loss)` (via the abstract `E`), weights normalised
to sum to 1, weighted losses sorted ascending, mean of the slice from
`int((1 - alpha) * n)` to the end; `0.0` on an empty argument. -/
def Kernel.dynamicCvar (E : ℚ → ℚ) (k : Kernel) (losses : List ℚ) (alpha : ℚ) : ℚ :=
  if losses = [] then 0
  else
    let weights := losses.map (fun loss => E (k.lam * loss))
    let totalWeight := weights.sum
    let normalizedWeights := weights.map (fun w => w / totalWeight)
    let weightedLosses := sortAsc ((losses.zip normalizedWeights).map (fun p => p.1 * p.2))
    let cut := (⌊(1 - alpha) * (weightedLosses.length : ℚ)⌋).toNat
    pyMean (weightedLosses.drop cut)

/-- `Superkernel._psi`: `1.0` with fewer than two stored vectors, else the
mean cosine similarity of each vector against the centroid. -/
def Kernel.psi (S : ℚ → ℚ) (k : Kernel) : ℚ :=
  if k.vectors.length < 2 then 1
  else pyMean (k.vectors.map (fun v => cosineSimilarity S v (centroid k.vectors)))

/-- `Superkernel._theta`: `1.0` with no stored vectors, else
`min(1, 1 / (mean distance to centroid + 1e-9))`. -/
def Kernel.theta (S : ℚ → ℚ) (k : Kernel) : ℚ :=
  if k.vectors.length = 0 then 1
  else
    let c := centroid k.vectors
    let dist := pyMean (k.vectors.map (fun v => euclideanDistance S v c))
    min 1 (1 / (dist + 1/1000000000))

/-- `Superkernel.omega_score`:
`0.4 * psi + 0.3 * theta + 0.2 * (1 - cvar) + 0.1 * pole`, where the CVaR
term is `dynamic_cvar(losses[-1000:])` when losses are stored and `0.0`
otherwise, and `pole = 1.0`. -/
def Kernel.omegaScore (E S : ℚ → ℚ) (k : Kernel) : ℚ :=
  let psi := k.psi S
  let theta := k.theta S
  let cvar := if k.losses = [] then 0 else k.dynamicCvar E (truncLast 1000 k.losses) (19/20)
  let pole : ℚ := 1
  (2/5) * psi + (3/10) * theta + (1/5) * (1 - cvar) + (1/10) * pole

/-- `Superkernel.hamiltonian`: `1 / (omega^2 + 1e-9) - nu * cvar`. -/
def Kernel.hamiltonian (E S : ℚ → ℚ) (k : Kernel) : ℚ :=
  let omega := k.omegaScore E S
  let cvar := if k.losses = [] then 0 else k.dynamicCvar E (truncLast 1000 k.losses) (19/20)
  1 / (omega ^ 2 + 1/1000000000) - k.nu * cvar

/-- `Superkernel.ingest`: append the vector and the loss together, then keep
only the last 10,000 entries of each history when the buffer exceeds
10,000. -/
def Kernel.ingest (k : Kernel) (vector : Vec) (loss : ℚ) : Kernel :=
  let vectors := k.vectors ++ [vector]
  let losses := k.losses ++ [loss]
  if 10000 < vectors.length then
    { k with vectors := truncLast 10000 vectors, losses := truncLast 10000 losses }
  else
    { k with vectors := vectors, losses := losses }

/-- `Superkernel.evolve`: when `hamiltonian() > 0.1`, increment the
intervention counter and raise `nu` by `0.02` (capped at `0.95`) and `lam`
by `0.05` (capped at `1.5`); otherwise leave the state unchanged. -/
def Kernel.evolve (E S : ℚ → ℚ) (k : Kernel) : Kernel :=
  if 1/10 < k.hamiltonian E S then
    { k with interventionCount := k.interventionCount + 1,
             nu := min (19/20) (k.nu + 1/50),
             lam := min (3/2) (k.lam + 1/20) }
  else k

/-- State of `SuperkernelZDL` (`superkernel_zdl.py`). -/
structure ZKernel where
  vectors : List Vec
  losses : List ℚ
  nu : ℚ
  lam : ℚ
  interventionCount : ℕ

/-- `SuperkernelZDL.__init__`: empty history, `nu = 0.80`, `lam = 1.20`,
zero interventions. -/
def ZKernel.init : ZKernel :=
  { vectors := [], losses := [], nu := 4/5, lam := 6/5, interventionCount := 0 }

/-- `SuperkernelZDL.cosine_similarity`: `0.0` when either norm is zero, else
`dot / (na * nb + 1e-9)`. -/
def zdlCosineSimilarity (S : ℚ → ℚ) (a b : Vec) : ℚ :=
  let na := S ((a.map (fun x => x * x)).sum)
  let nb := S ((b.map (fun y => y * y)).sum)
  if na = 0 ∨ nb = 0 then 0
  else ((a.zip b).map (fun p => p.1 * p.2)).sum / (na * nb + 1/1000000000)

/-- `SuperkernelZDL._centroid`: columnwise mean over `zip(*vectors)`, which
truncates to the shortest stored vector. -/
def zdlCentroid (vectors : List Vec) : Vec :=
  match vectors with
  | [] => []
  | v :: vs =>
      (List.range (((v :: vs).map List.length).min?.getD 0)).map
        (fun i => (((v :: vs).map (fun w => w.getD i 0)).sum) / (v :: vs).length)

/-- `SuperkernelZDL._psi`: `1.0` with fewer than two vectors, else the mean
cosine similarity against the centroid (`0.0` fallback on an empty
similarity list). -/
def ZKernel.psi (S : ℚ → ℚ) (k : ZKernel) : ℚ :=
  if k.vectors.length < 2 then 1
  else
    let sims := k.vectors.map (fun v => zdlCosineSimilarity S v (zdlCentroid k.vectors))
    if sims.length = 0 then 0 else sims.sum / sims.length

/-- `SuperkernelZDL._theta`: `1.0` with no vectors, else
`min(1, 1 / (mean distance + 1e-9))`. -/
def ZKernel.theta (S : ℚ → ℚ) (k : ZKernel) : ℚ :=
  if k.vectors.length = 0 then 1
  else
    let c := zdlCentroid k.vectors
    let dists := k.vectors.map (fun v => S (((v.zip c).map (fun p => (p.1 - p.2) ^ 2)).sum))
    min 1 (1 / (dists.sum / dists.length + 1/1000000000))

/-- `SuperkernelZDL.dynamic_cvar(alpha)`: plain tail mean — sort the raw
stored losses ascending, cut at `int(n * alpha)`, return the mean of the
tail (`0.0` on empty losses or empty tail). -/
def ZKernel.dynamicCvar (k : ZKernel) (alpha : ℚ) : ℚ :=
  if k.losses = [] then 0
  else
    let sortedLosses := sortAsc k.losses
    let cut := (⌊(sortedLosses.length : ℚ) * alpha⌋).toNat
    let tail := sortedLosses.drop cut
    if tail = [] then 0 else tail.sum / tail.length

/-- `SuperkernelZDL.omega`: same blend as the main kernel, with the plain
tail-mean CVaR over all stored losses. -/
def ZKernel.omega (E S : ℚ → ℚ) (k : ZKernel) : ℚ :=
  let _ := E
  (2/5) * k.psi S + (3/10) * k.theta S + (1/5) * (1 - k.dynamicCvar (19/20)) + (1/10) * 1

/-- `SuperkernelZDL.hamiltonian`: `1 / (omega * omega + 1e-9) - nu * cvar`. -/
def ZKernel.hamiltonian (E S : ℚ → ℚ) (k : ZKernel) : ℚ :=
  let omegaVal := k.omega E S
  1 / (omegaVal * omegaVal + 1/1000000000) - k.nu * k.dynamicCvar (19/20)

/-- `SuperkernelZDL.ingest`: identical append-then-evict policy to the main
kernel. -/
def ZKernel.ingest (k : ZKernel) (vector : Vec) (loss : ℚ) : ZKernel :=
  let vectors := k.vectors ++ [vector]
  let losses := k.losses ++ [loss]
  if 10000 < vectors.length then
    { k with vectors := truncLast 10000 vectors, losses := truncLast 10000 losses }
  else
    { k with vectors := vectors, losses := losses }

/-- `SuperkernelZDL.evolve`: identical self-tuning rule to the main
kernel. -/
def ZKernel.evolve (E S : ℚ → ℚ) (k : ZKernel) : ZKernel :=
  if 1/10 < k.hamiltonian E S then
    { k with nu := min (19/20) (k.nu + 1/50),
             lam := min (3/2) (k.lam + 1/20),
             interventionCount := k.interventionCount + 1 }
  else k

/-- One entry of `TACEOracle.history`: the timestamp plus the fields of
`Superkernel.assess_system_health()`. -/
structure Snap where
  timestamp : ℚ
  omega : ℚ
  hamiltonian : ℚ
  psi : ℚ
  theta : ℚ
  cvar : ℚ
  interventionCount : ℕ

/-- Zero snapshot, used only as the (unreachable) default of guarded
last-element lookups. -/
def Snap.zero : Snap := ⟨0, 0, 0, 0, 0, 0, 0⟩

/-- `TACEOracle._compute_d_omega_dt`: `0.0` with fewer than two snapshots;
else `(omega[-1] - omega[-2]) / dt` when `dt > 0`, and `0.0` when the time
delta is non-positive. -/
def computeDOmegaDt (history : List Snap) : ℚ :=
  if history.length < 2 then 0
  else
    let last := history.getLast?.getD Snap.zero
    let prev := history.dropLast.getLast?.getD Snap.zero
    let dt := last.timestamp - prev.timestamp
    let domega := last.omega - prev.omega
    if 0 < dt then domega / dt else 0

/-- The `omega_gain` computed in `TACEOracle._trigger_if_needed`:
`omega[-1] - omega[-2]` when at least two snapshots exist, else `0.0`. -/
def omegaGain (history : List Snap) : ℚ :=
  if 2 ≤ history.length then
    (history.getLast?.getD Snap.zero).omega - (history.dropLast.getLast?.getD Snap.zero).omega
  else 0

/-- The trigger decision of `TACEOracle._trigger_if_needed`, as a function
of the post-record snapshot history: return early (no trigger) when the
computed rate is `≤ 0`; otherwise invoke the integrator exactly when
`omega_gain >= min_omega_gain`. -/
def triggerNeeded (minOmegaGain : ℚ) (history : List Snap) : Bool :=
  let dOmegaDt := computeDOmegaDt history
  if dOmegaDt ≤ 0 then false
  else decide (minOmegaGain ≤ omegaGain history)

/-- Spec scenario: omega `0.500000` then `0.500600`, one second apart. -/
def fireHist : List Snap :=
  [⟨0, 1/2, 0, 0, 0, 0, 0⟩, ⟨1, 5006/10000, 0, 0, 0, 0, 0⟩]

/-- Spec scenario: omega `0.500000` then `0.500300`, one second apart. -/
def noFireHist : List Snap :=
  [⟨0, 1/2, 0, 0, 0, 0, 0⟩, ⟨1, 5003/10000, 0, 0, 0, 0, 0⟩]

/-- Outcome of one body execution inside `TACEOracle._loop`: either the
body (evolve, record, trigger, sleep) ran to completion, or it raised and
the `except` clause caught and reported the exception. -/
inductive CycleResult where
  | ok : CycleResult
  | caught : CycleResult

/-- `TACEOracle._loop` observed for at most `fuel` iterations, starting at
flag-read index `i`.  `flag j` is the value of `self.running` at its `j`-th
read by the `while` guard (the flag is written concurrently by
`start`/`stop`); `fails j` tells whether the body raised on iteration `j`.
Each iteration first reads the guard; when the guard is false the loop ends;
when it is true the body runs, any exception is caught, and the loop
continues with the next read. -/
def loopTrace (flag fails : ℕ → Bool) : ℕ → ℕ → List CycleResult
  | 0, _ => []
  | fuel + 1, i =>
      if flag i then
        (if fails i then CycleResult.caught else CycleResult.ok) :: loopTrace flag fails fuel (i + 1)
      else []

/-- The tail-risk algorithm exactly as the words of the spec describe it
(spec §4.1, `tail_risk`): over the most recent 1000 stored losses, weight
each loss by `exp(lambda * loss)`, normalise the weights to sum to 1, form
`weighted_loss_i = loss_i * normalized_weight_i`, sort ascending, and take
the mean of the elements from index `floor((1 - alpha) * n)` to the end;
`0.0` when no losses are stored. -/
def specDescribedTailRisk (E : ℚ → ℚ) (lam : ℚ) (storedLosses : List ℚ) (alpha : ℚ) : ℚ :=
  let recent := truncLast 1000 storedLosses
  if recent = [] then 0
  else
    let weights := recent.map (fun loss => E (lam * loss))
    let normalized := weights.map (fun w => w / weights.sum)
    let weighted := List.zipWith (fun loss w => loss * w) recent normalized
    let sortedW := sortAsc weighted
    let cut := (⌊(1 - alpha) * (sortedW.length : ℚ)⌋).toNat
    pyMean (sortedW.drop cut)

/-- A call against the public mutating interface of the kernel: `ingest` or
`evolve`. -/
inductive Op where
  | ingest : Vec → ℚ → Op
  | evolve : Op

/-- Apply one interface call to a `Superkernel` state. -/
def Kernel.step (E S : ℚ → ℚ) (k : Kernel) : Op → Kernel
  | Op.ingest v l => k.ingest v l
  | Op.evolve => k.evolve E S

/-- Run a sequence of interface calls against a fresh `Superkernel`. -/
def Kernel.run (E S : ℚ → ℚ) (ops : List Op) : Kernel :=
  ops.foldl (Kernel.step E S) Kernel.init

/-- Apply one interface call to a `SuperkernelZDL` state. -/
def ZKernel.step (E S : ℚ → ℚ) (k : ZKernel) : Op → ZKernel
  | Op.ingest v l => k.ingest v l
  | Op.evolve => k.evolve E S

/-- Run a sequence of interface calls against a fresh `SuperkernelZDL`. -/
def ZKernel.run (E S : ℚ → ℚ) (ops : List Op) : ZKernel :=
  ops.foldl (ZKernel.step E S) ZKernel.init

/-- Feed a sequence of `(vector, loss)` samples to `Superkernel.ingest`. -/
def ingestAll (k : Kernel) (xs : List (Vec × ℚ)) : Kernel :=
  xs.foldl (fun s p => s.ingest p.1 p.2) k

/-- Feed a sequence of `(vector, loss)` samples to `SuperkernelZDL.ingest`. -/
def zIngestAll (k : ZKernel) (xs : List (Vec × ℚ)) : ZKernel :=
  xs.foldl (fun s p => s.ingest p.1 p.2) k

/-- A concrete stand-in for `math.exp` used to instantiate closed
evaluations whose result does not depend on the values of the exponential. -/
def expStub : ℚ → ℚ := fun _ => 1

/-- A concrete stand-in for `math.sqrt` used to instantiate closed
evaluations whose result does not depend on the values of the square root. -/
def sqrtStub : ℚ → ℚ := fun _ => 0

/-- Iterate `Superkernel.evolve` from the freshly constructed kernel. -/
def evolveIter (E S : ℚ → ℚ) : ℕ → Kernel
  | 0 => Kernel.init
  | n + 1 => (evolveIter E S n).evolve E S

/-- A `Superkernel` state with both adaptive parameters saturated at their
caps (`nu = 0.95`, `lam = 1.5`) and empty history. -/
def satKer : Kernel :=
  { Kernel.init with nu := 19/20, lam := 3/2 }

/-- A `SuperkernelZDL` state with both adaptive parameters saturated at
their caps and empty history. -/
def zSatKer : ZKernel :=
  { ZKernel.init with nu := 19/20, lam := 3/2 }

/-- With empty histories the composite score is exactly
`0.4 + 0.3 + 0.2 + 0.1 = 1`, for any exponential and square root. -/
lemma emptyOmega (E S : ℚ → ℚ) (k : Kernel) (hv : k.vectors = []) (hl : k.losses = []) :
    k.omegaScore E S = 1 := by
  unfold Kernel.omegaScore Kernel.psi Kernel.theta
  simp [hv, hl]
  norm_num

/-- With empty histories the hamiltonian is exactly `1 / (1 + 1e-9)`,
independently of `nu`. -/
lemma emptyHamiltonian (E S : ℚ → ℚ) (k : Kernel) (hv : k.vectors = []) (hl : k.losses = []) :
    k.hamiltonian E S = 1 / (1 + 1/1000000000) := by
  unfold Kernel.hamiltonian
  rw [emptyOmega E S k hv hl]
  simp [hl]

/-- With empty histories the hamiltonian exceeds the `0.1` evolution
threshold. -/
lemma emptyHamiltonian_gt (E S : ℚ → ℚ) (k : Kernel) (hv : k.vectors = []) (hl : k.losses = []) :
    1/10 < k.hamiltonian E S := by
  rw [emptyHamiltonian E S k hv hl]
  norm_num

/-- C10: on a freshly constructed kernel the composite score is exactly 1
(cohesion 1, dispersion 1, tail risk 0, constant term 1), the hamiltonian is
`1 / (1 + 1e-9)`, which exceeds the `0.1` threshold, so the first `evolve()`
sets the intervention counter to 1, `nu` to `0.82` and `lam` to `1.25`. -/
theorem c10_fresh_kernel_first_evolve (E S : ℚ → ℚ) :
    Kernel.init.omegaScore E S = 1 ∧
    Kernel.init.hamiltonian E S = 1 / (1 + 1/1000000000) ∧
    1/10 < Kernel.init.hamiltonian E S ∧
    (Kernel.init.evolve E S).interventionCount = 1 ∧
    (Kernel.init.evolve E S).nu = 41/50 ∧
    (Kernel.init.evolve E S).lam = 5/4 := by
  have hh := emptyHamiltonian_gt E S Kernel.init rfl rfl
  refine ⟨emptyOmega E S Kernel.init rfl rfl, emptyHamiltonian E S Kernel.init rfl rfl, hh, ?_, ?_, ?_⟩ <;>
    · unfold Kernel.evolve
      rw [if_pos hh]
      norm_num [Kernel.init]

/-- C1 counterexample: a kernel state with both parameters saturated at
their caps (`nu = 0.95`, `lam = 1.5`) whose hamiltonian still exceeds `0.1`;
calling `evolve()` on it increments the intervention counter, so `evolve()`
is not a no-op at the cap boundaries. -/
theorem c1_counterexample_saturated_evolve_counts :
    satKer.nu = 19/20 ∧ satKer.lam = 3/2 ∧
    1/10 < satKer.hamiltonian expStub sqrtStub ∧
    (satKer.evolve expStub sqrtStub).interventionCount = satKer.interventionCount + 1 := by
  have hh := emptyHamiltonian_gt expStub sqrtStub satKer rfl rfl
  refine ⟨rfl, rfl, hh, ?_⟩
  unfold Kernel.evolve
  rw [if_pos hh]

/-- C1 amended: once both parameters are saturated at their caps, `evolve()`
leaves `nu` and `lam` unchanged, but it is not a no-op on the intervention
counter — the counter still increments exactly when the hamiltonian exceeds
`0.1` (and this holds for both kernel implementations). -/
theorem c1_amended_saturated_evolve (E S : ℚ → ℚ) (k : Kernel) (z : ZKernel)
    (hk1 : k.nu = 19/20) (hk2 : k.lam = 3/2) (hz1 : z.nu = 19/20) (hz2 : z.lam = 3/2) :
    ((k.evolve E S).nu = 19/20 ∧ (k.evolve E S).lam = 3/2 ∧
      (k.evolve E S).interventionCount =
        (if 1/10 < k.hamiltonian E S then k.interventionCount + 1 else k.interventionCount)) ∧
    ((z.evolve E S).nu = 19/20 ∧ (z.evolve E S).lam = 3/2 ∧
      (z.evolve E S).interventionCount =
        (if 1/10 < z.hamiltonian E S then z.interventionCount + 1 else z.interventionCount)) := by
  constructor
  · unfold Kernel.evolve
    split <;> simp [hk1, hk2]
  · unfold ZKernel.evolve
    split <;> simp [hz1, hz2]

/-- Witness for the amended C1 at the concrete saturated states. -/
theorem c1_amended_saturated_evolve_witness :
    satKer.nu = 19/20 ∧ satKer.lam = 3/2 ∧ zSatKer.nu = 19/20 ∧ zSatKer.lam = 3/2 ∧
    (((satKer.evolve expStub sqrtStub).nu = 19/20 ∧
        (satKer.evolve expStub sqrtStub).lam = 3/2 ∧
        (satKer.evolve expStub sqrtStub).interventionCount =
          (if 1/10 < satKer.hamiltonian expStub sqrtStub then satKer.interventionCount + 1
           else satKer.interventionCount)) ∧
      ((zSatKer.evolve expStub sqrtStub).nu = 19/20 ∧
        (zSatKer.evolve expStub sqrtStub).lam = 3/2 ∧
        (zSatKer.evolve expStub sqrtStub).interventionCount =
          (if 1/10 < zSatKer.hamiltonian expStub sqrtStub then zSatKer.interventionCount + 1
           else zSatKer.interventionCount))) :=
  ⟨rfl, rfl, rfl, rfl,
    c1_amended_saturated_evolve expStub sqrtStub satKer zSatKer rfl rfl rfl rfl⟩

/-- C8: cohesion is exactly 1 whenever fewer than two vectors are stored,
dispersion is exactly 1 with no stored vectors, and cosine similarity of any
vector against a zero-norm (all-zero) vector is 0 (assuming only
`sqrt 0 = 0` of the square-root function). -/
theorem c8_degenerate_rules (S : ℚ → ℚ) (hS : S 0 = 0)
    (k kEmpty : Kernel) (hk : k.vectors.length < 2) (hke : kEmpty.vectors = [])
    (a b : Vec) (hb : ∀ x ∈ b, x = 0) :
    k.psi S = 1 ∧ kEmpty.theta S = 1 ∧ cosineSimilarity S a b = 0 := by
  refine ⟨?_, ?_, ?_⟩
  · unfold Kernel.psi
    rw [if_pos hk]
  · unfold Kernel.theta
    simp [hke]
  · unfold cosineSimilarity
    have hzero : ((b.map (fun y => y * y)).sum : ℚ) = 0 := by
      apply List.sum_eq_zero
      intro x hx
      obtain ⟨y, hy, rfl⟩ := List.mem_map.mp hx
      rw [hb y hy, mul_zero]
    rw [hzero, hS]
    simp

/-- Witness for C8: one stored vector, an empty kernel, and the zero vector,
with the identity standing in for `sqrt` (it maps 0 to 0). -/
theorem c8_degenerate_rules_witness :
    (fun x : ℚ => x) 0 = 0 ∧
    ({ Kernel.init with vectors := [[1, 2]] } : Kernel).vectors.length < 2 ∧
    (Kernel.init.vectors = []) ∧ (∀ x ∈ ([0, 0] : Vec), x = 0) ∧
    (({ Kernel.init with vectors := [[1, 2]] } : Kernel).psi (fun x : ℚ => x) = 1 ∧
      Kernel.init.theta (fun x : ℚ => x) = 1 ∧
      cosineSimilarity (fun x : ℚ => x) [1, 2] [0, 0] = 0) :=
  ⟨rfl, by norm_num, rfl, by simp,
    c8_degenerate_rules (fun x : ℚ => x) rfl
      { Kernel.init with vectors := [[1, 2]] } Kernel.init (by norm_num) rfl
      [1, 2] [0, 0] (by simp)⟩

/-- Appending one element and then evicting down to the last `K` entries
(the `ingest` policy) agrees with keeping the last `K` entries of the full
append-only history. -/
lemma truncLast_snoc (K : ℕ) (hK : 0 < K) (l : List α) (x : α) :
    truncLast K (l ++ [x]) =
      if K < (truncLast K l ++ [x]).length then truncLast K (truncLast K l ++ [x])
      else truncLast K l ++ [x] := by
  unfold truncLast
  rcases lt_or_ge l.length K with h | h
  · have h1 : l.length - K = 0 := by omega
    have h2 : (l ++ [x]).length - K = 0 := by simp; omega
    have h2' : l.length + 1 - K = 0 := by omega
    rw [if_neg]
    · simp [h1, h2, h2']
    · simp [h1]; omega
  · have h1 : (l.drop (l.length - K)).length = K := by simp; omega
    have hle : l.length + 1 - K ≤ l.length := by omega
    rw [if_pos]
    · have hR : ((l.drop (l.length - K) ++ [x]).drop
          ((l.drop (l.length - K) ++ [x]).length - K)) =
          l.drop (l.length + 1 - K) ++ [x] := by
        have hlen2 : (l.drop (l.length - K) ++ [x]).length - K = 1 := by simp [h1]
        rw [hlen2, List.drop_append_of_le_length (by omega), List.drop_drop]
        congr 2
        omega
      have hL : (l ++ [x]).drop ((l ++ [x]).length - K) = l.drop (l.length + 1 - K) ++ [x] := by
        have hlen3 : (l ++ [x]).length - K = l.length + 1 - K := by simp
        rw [hlen3, List.drop_append_of_le_length hle]
      rw [hL, hR]
    · simp [h1]

/-- `Superkernel.ingest` preserves the sliding-window characterisation of
both history buffers. -/
lemma ingest_histories (k : Kernel) (v : Vec) (l : ℚ) (vs : List Vec) (ls : List ℚ)
    (hv : k.vectors = truncLast 10000 vs) (hl : k.losses = truncLast 10000 ls)
    (hlen : vs.length = ls.length) :
    (k.ingest v l).vectors = truncLast 10000 (vs ++ [v]) ∧
    (k.ingest v l).losses = truncLast 10000 (ls ++ [l]) := by
  simp only [Kernel.ingest]
  rw [hv, hl]
  have hcond : (truncLast 10000 vs ++ [v]).length = (truncLast 10000 ls ++ [l]).length := by
    simp [truncLast]; omega
  by_cases hgt : 10000 < (truncLast 10000 vs ++ [v]).length
  · rw [if_pos hgt]
    constructor
    · rw [truncLast_snoc 10000 (by norm_num) vs v, if_pos hgt]
    · rw [truncLast_snoc 10000 (by norm_num) ls l, if_pos (by rw [← hcond]; exact hgt)]
  · rw [if_neg hgt]
    constructor
    · rw [truncLast_snoc 10000 (by norm_num) vs v, if_neg hgt]
    · rw [truncLast_snoc 10000 (by norm_num) ls l, if_neg (by rw [← hcond]; exact hgt)]

/-- Sliding-window characterisation of the buffers after any `ingest`
sequence against `Superkernel`. -/
lemma ingestAll_histories :
    ∀ (xs : List (Vec × ℚ)) (k : Kernel) (vs : List Vec) (ls : List ℚ),
      k.vectors = truncLast 10000 vs → k.losses = truncLast 10000 ls →
      vs.length = ls.length →
      (ingestAll k xs).vectors = truncLast 10000 (vs ++ xs.map Prod.fst) ∧
      (ingestAll k xs).losses = truncLast 10000 (ls ++ xs.map Prod.snd)
  | [], k, vs, ls, hv, hl, _ => by simpa [ingestAll] using ⟨hv, hl⟩
  | (v, l) :: xs, k, vs, ls, hv, hl, hlen => by
      obtain ⟨h1, h2⟩ := ingest_histories k v l vs ls hv hl hlen
      have hrec := ingestAll_histories xs (k.ingest v l) (vs ++ [v]) (ls ++ [l]) h1 h2
        (by simp [hlen])
      simpa [ingestAll, List.append_assoc] using hrec

/-- `SuperkernelZDL.ingest` preserves the sliding-window characterisation of
both history buffers. -/
lemma zIngest_histories (k : ZKernel) (v : Vec) (l : ℚ) (vs : List Vec) (ls : List ℚ)
    (hv : k.vectors = truncLast 10000 vs) (hl : k.losses = truncLast 10000 ls)
    (hlen : vs.length = ls.length) :
    (k.ingest v l).vectors = truncLast 10000 (vs ++ [v]) ∧
    (k.ingest v l).losses = truncLast 10000 (ls ++ [l]) := by
  simp only [ZKernel.ingest]
  rw [hv, hl]
  have hcond : (truncLast 10000 vs ++ [v]).length = (truncLast 10000 ls ++ [l]).length := by
    simp [truncLast]; omega
  by_cases hgt : 10000 < (truncLast 10000 vs ++ [v]).length
  · rw [if_pos hgt]
    constructor
    · rw [truncLast_snoc 10000 (by norm_num) vs v, if_pos hgt]
    · rw [truncLast_snoc 10000 (by norm_num) ls l, if_pos (by rw [← hcond]; exact hgt)]
  · rw [if_neg hgt]
    constructor
    · rw [truncLast_snoc 10000 (by norm_num) vs v, if_neg hgt]
    · rw [truncLast_snoc 10000 (by norm_num) ls l, if_neg (by rw [← hcond]; exact hgt)]

/-- Sliding-window characterisation of the buffers after any `ingest`
sequence against `SuperkernelZDL`. -/
lemma zIngestAll_histories :
    ∀ (xs : List (Vec × ℚ)) (k : ZKernel) (vs : List Vec) (ls : List ℚ),
      k.vectors = truncLast 10000 vs → k.losses = truncLast 10000 ls →
      vs.length = ls.length →
      (zIngestAll k xs).vectors = truncLast 10000 (vs ++ xs.map Prod.fst) ∧
      (zIngestAll k xs).losses = truncLast 10000 (ls ++ xs.map Prod.snd)
  | [], k, vs, ls, hv, hl, _ => by simpa [zIngestAll] using ⟨hv, hl⟩
  | (v, l) :: xs, k, vs, ls, hv, hl, hlen => by
      obtain ⟨h1, h2⟩ := zIngest_histories k v l vs ls hv hl hlen
      have hrec := zIngestAll_histories xs (k.ingest v l) (vs ++ [v]) (ls ++ [l]) h1 h2
        (by simp [hlen])
      simpa [zIngestAll, List.append_assoc] using hrec

/-- C5: after any sequence of `ingest(vector, loss)` calls on a fresh kernel
(either implementation), the vector history and the loss history have equal
length, that length never exceeds 10,000, and each buffer holds exactly the
most recent 10,000 samples (`truncLast`) of the full ingest sequence, in
original relative order. -/
theorem c5_bounded_paired_buffers (xs : List (Vec × ℚ)) :
    (ingestAll Kernel.init xs).vectors.length = (ingestAll Kernel.init xs).losses.length ∧
    (ingestAll Kernel.init xs).vectors.length ≤ 10000 ∧
    (ingestAll Kernel.init xs).vectors = truncLast 10000 (xs.map Prod.fst) ∧
    (ingestAll Kernel.init xs).losses = truncLast 10000 (xs.map Prod.snd) ∧
    (zIngestAll ZKernel.init xs).vectors = truncLast 10000 (xs.map Prod.fst) ∧
    (zIngestAll ZKernel.init xs).losses = truncLast 10000 (xs.map Prod.snd) := by
  obtain ⟨h1, h2⟩ := ingestAll_histories xs Kernel.init [] [] rfl rfl rfl
  obtain ⟨h3, h4⟩ := zIngestAll_histories xs ZKernel.init [] [] rfl rfl rfl
  simp only [List.nil_append] at h1 h2 h3 h4
  refine ⟨?_, ?_, h1, h2, h3, h4⟩
  · rw [h1, h2]
    simp [truncLast]
  · rw [h1]
    simp only [truncLast, List.length_drop, List.length_map]
    omega

/-- One capped parameter step of `evolve` never decreases the parameter and
never exceeds the cap. -/
lemma cappedStep (cap d p : ℚ) (hp : p ≤ cap) (hd : 0 ≤ d) :
    p ≤ min cap (p + d) ∧ min cap (p + d) ≤ cap :=
  ⟨le_min hp (by linarith), min_le_left _ _⟩

/-- One interface call on `Superkernel` never decreases `nu` or `lam` and
preserves their caps. -/
lemma kernelStep_mono (E S : ℚ → ℚ) (k : Kernel) (op : Op)
    (h1 : k.nu ≤ 19/20) (h2 : k.lam ≤ 3/2) :
    (k.nu ≤ (k.step E S op).nu ∧ (k.step E S op).nu ≤ 19/20) ∧
    (k.lam ≤ (k.step E S op).lam ∧ (k.step E S op).lam ≤ 3/2) := by
  cases op with
  | ingest v l =>
    simp only [Kernel.step, Kernel.ingest]
    split <;> exact ⟨⟨le_refl _, h1⟩, ⟨le_refl _, h2⟩⟩
  | evolve =>
    simp only [Kernel.step, Kernel.evolve]
    split
    · exact ⟨(cappedStep (19/20) (1/50) k.nu h1 (by norm_num)).imp id id,
        (cappedStep (3/2) (1/20) k.lam h2 (by norm_num)).imp id id⟩
    · exact ⟨⟨le_refl _, h1⟩, ⟨le_refl _, h2⟩⟩

/-- Folding any call sequence over `Superkernel` keeps `nu` and `lam`
monotone and capped. -/
lemma kernelFoldl_mono (E S : ℚ → ℚ) :
    ∀ (ops : List Op) (k : Kernel), k.nu ≤ 19/20 → k.lam ≤ 3/2 →
      (k.nu ≤ (ops.foldl (Kernel.step E S) k).nu ∧
        (ops.foldl (Kernel.step E S) k).nu ≤ 19/20) ∧
      (k.lam ≤ (ops.foldl (Kernel.step E S) k).lam ∧
        (ops.foldl (Kernel.step E S) k).lam ≤ 3/2)
  | [], k, h1, h2 => ⟨⟨le_refl _, h1⟩, ⟨le_refl _, h2⟩⟩
  | op :: ops, k, h1, h2 => by
      obtain ⟨⟨s1, s2⟩, ⟨s3, s4⟩⟩ := kernelStep_mono E S k op h1 h2
      obtain ⟨⟨r1, r2⟩, ⟨r3, r4⟩⟩ := kernelFoldl_mono E S ops (k.step E S op) s2 s4
      exact ⟨⟨le_trans s1 r1, r2⟩, ⟨le_trans s3 r3, r4⟩⟩

/-- One interface call on `SuperkernelZDL` never decreases `nu` or `lam` and
preserves their caps. -/
lemma zStep_mono (E S : ℚ → ℚ) (k : ZKernel) (op : Op)
    (h1 : k.nu ≤ 19/20) (h2 : k.lam ≤ 3/2) :
    (k.nu ≤ (k.step E S op).nu ∧ (k.step E S op).nu ≤ 19/20) ∧
    (k.lam ≤ (k.step E S op).lam ∧ (k.step E S op).lam ≤ 3/2) := by
  cases op with
  | ingest v l =>
    simp only [ZKernel.step, ZKernel.ingest]
    split <;> exact ⟨⟨le_refl _, h1⟩, ⟨le_refl _, h2⟩⟩
  | evolve =>
    simp only [ZKernel.step, ZKernel.evolve]
    split
    · exact ⟨(cappedStep (19/20) (1/50) k.nu h1 (by norm_num)).imp id id,
        (cappedStep (3/2) (1/20) k.lam h2 (by norm_num)).imp id id⟩
    · exact ⟨⟨le_refl _, h1⟩, ⟨le_refl _, h2⟩⟩

/-- Folding any call sequence over `SuperkernelZDL` keeps `nu` and `lam`
monotone and capped. -/
lemma zFoldl_mono (E S : ℚ → ℚ) :
    ∀ (ops : List Op) (k : ZKernel), k.nu ≤ 19/20 → k.lam ≤ 3/2 →
      (k.nu ≤ (ops.foldl (ZKernel.step E S) k).nu ∧
        (ops.foldl (ZKernel.step E S) k).nu ≤ 19/20) ∧
      (k.lam ≤ (ops.foldl (ZKernel.step E S) k).lam ∧
        (ops.foldl (ZKernel.step E S) k).lam ≤ 3/2)
  | [], k, h1, h2 => ⟨⟨le_refl _, h1⟩, ⟨le_refl _, h2⟩⟩
  | op :: ops, k, h1, h2 => by
      obtain ⟨⟨s1, s2⟩, ⟨s3, s4⟩⟩ := zStep_mono E S k op h1 h2
      obtain ⟨⟨r1, r2⟩, ⟨r3, r4⟩⟩ := zFoldl_mono E S ops (k.step E S op) s2 s4
      exact ⟨⟨le_trans s1 r1, r2⟩, ⟨le_trans s3 r3, r4⟩⟩

/-- C6: across every sequence of `ingest` and `evolve` calls from the
initial state (either implementation), `nu` never decreases and never
exceeds `0.95`, and `lam` never decreases and never exceeds `1.5`:
extending any call sequence can only keep or raise both parameters, and the
caps always hold. -/
theorem c6_monotone_bounded_parameters (E S : ℚ → ℚ) (ops more : List Op) :
    (Kernel.run E S ops).nu ≤ (Kernel.run E S (ops ++ more)).nu ∧
    (Kernel.run E S (ops ++ more)).nu ≤ 19/20 ∧
    (Kernel.run E S ops).lam ≤ (Kernel.run E S (ops ++ more)).lam ∧
    (Kernel.run E S (ops ++ more)).lam ≤ 3/2 ∧
    (ZKernel.run E S ops).nu ≤ (ZKernel.run E S (ops ++ more)).nu ∧
    (ZKernel.run E S (ops ++ more)).nu ≤ 19/20 ∧
    (ZKernel.run E S ops).lam ≤ (ZKernel.run E S (ops ++ more)).lam ∧
    (ZKernel.run E S (ops ++ more)).lam ≤ 3/2 := by
  have hbase := kernelFoldl_mono E S ops Kernel.init (by norm_num [Kernel.init])
    (by norm_num [Kernel.init])
  have hext := kernelFoldl_mono E S more (ops.foldl (Kernel.step E S) Kernel.init)
    hbase.1.2 hbase.2.2
  have zbase := zFoldl_mono E S ops ZKernel.init (by norm_num [ZKernel.init])
    (by norm_num [ZKernel.init])
  have zext := zFoldl_mono E S more (ops.foldl (ZKernel.step E S) ZKernel.init)
    zbase.1.2 zbase.2.2
  unfold Kernel.run ZKernel.run
  rw [List.foldl_append, List.foldl_append]
  exact ⟨hext.1.1, hext.1.2, hext.2.1, hext.2.2, zext.1.1, zext.1.2, zext.2.1, zext.2.2⟩

/-- `ingest` never touches the adaptive parameters: any ingest-only
sequence leaves `nu` and `lam` at their incoming values. -/
lemma ingestAll_params : ∀ (xs : List (Vec × ℚ)) (k : Kernel),
    (ingestAll k xs).nu = k.nu ∧ (ingestAll k xs).lam = k.lam
  | [], _ => ⟨rfl, rfl⟩
  | x :: xs, k => by
      have hstep : (k.ingest x.1 x.2).nu = k.nu ∧ (k.ingest x.1 x.2).lam = k.lam := by
        simp only [Kernel.ingest]
        split <;> exact ⟨rfl, rfl⟩
      have h := ingestAll_params xs (k.ingest x.1 x.2)
      simp only [ingestAll, List.foldl_cons] at h ⊢
      exact ⟨h.1.trans hstep.1, h.2.trans hstep.2⟩

/-- C7: `omega_score()` is a pure function of the stored history (and the
tilting factor `lam` it reads): any two kernel states agreeing on `vectors`,
`losses` and `lam` — whatever their `nu`, intervention counter or other
fields — produce the same composite score, for every exponential and square
root; and ingest-only call sequences (no intervening `evolve`) never change
`nu` or `lam`, so two fresh kernels fed the identical ingest sequence agree
on all score-relevant state and hence on the score.  In this exact-rational
model the score is a well-defined (finite) rational for every input. -/
theorem c7_omega_pure_function_of_history (E S : ℚ → ℚ) (xs : List (Vec × ℚ)) (k₁ k₂ : Kernel)
    (hv : k₁.vectors = k₂.vectors) (hl : k₁.losses = k₂.losses) (hlam : k₁.lam = k₂.lam) :
    k₁.omegaScore E S = k₂.omegaScore E S ∧
    (ingestAll Kernel.init xs).nu = Kernel.init.nu ∧
    (ingestAll Kernel.init xs).lam = Kernel.init.lam := by
  refine ⟨?_, (ingestAll_params xs Kernel.init).1, (ingestAll_params xs Kernel.init).2⟩
  simp only [Kernel.omegaScore, Kernel.psi, Kernel.theta, Kernel.dynamicCvar]
  rw [hv, hl, hlam]

/-- Witness for C7: two concrete states differing only in `nu` and the
intervention counter, and a concrete one-sample ingest sequence. -/
theorem c7_omega_pure_function_of_history_witness :
    Kernel.init.vectors =
        ({ Kernel.init with nu := 0, interventionCount := 5 } : Kernel).vectors ∧
    Kernel.init.losses =
        ({ Kernel.init with nu := 0, interventionCount := 5 } : Kernel).losses ∧
    Kernel.init.lam = ({ Kernel.init with nu := 0, interventionCount := 5 } : Kernel).lam ∧
    (Kernel.init.omegaScore expStub sqrtStub =
        ({ Kernel.init with nu := 0, interventionCount := 5 } : Kernel).omegaScore
          expStub sqrtStub ∧
      (ingestAll Kernel.init [([1], 1/2)]).nu = Kernel.init.nu ∧
      (ingestAll Kernel.init [([1], 1/2)]).lam = Kernel.init.lam) :=
  ⟨rfl, rfl, rfl,
    c7_omega_pure_function_of_history expStub sqrtStub [([1], 1/2)] Kernel.init
      { Kernel.init with nu := 0, interventionCount := 5 } rfl rfl rfl⟩

/-- C3: the tail-risk value used by `omega_score` —
`Superkernel.dynamic_cvar` at its default `alpha = 0.95` applied to the most
recent 1000 stored losses — coincides with the algorithm the spec describes
(`specDescribedTailRisk`), and it returns exactly `0.0` when no losses are
stored. -/
theorem c3_tail_risk_matches_described_algorithm (E : ℚ → ℚ) (k : Kernel) :
    k.dynamicCvar E (truncLast 1000 k.losses) (19/20) =
      specDescribedTailRisk E k.lam k.losses (19/20) ∧
    k.dynamicCvar E [] (19/20) = 0 := by
  constructor
  · simp only [Kernel.dynamicCvar, specDescribedTailRisk, List.zip_eq_zipWith,
      List.map_zipWith]
  · simp [Kernel.dynamicCvar]

/-- Value of the tilted CVaR of `superkernel.py` on the stored losses
`[0, 1]` at the default `alpha = 0.95` and initial `lam = 1.2`: the
normalised tilt weight of the loss `1`, halved.  Only positivity of the
exponential is used. -/
lemma main_cvar_pair (E : ℚ → ℚ) (k : Kernel) (hk : k.lam = 6/5)
    (h0 : 0 < E 0) (h1 : 0 < E (6/5)) :
    k.dynamicCvar E [0, 1] (19/20) = E (6/5) / (E 0 + E (6/5)) / 2 := by
  have ht : 0 < E 0 + E (6/5) := by linarith
  have hw : (0:ℚ) ≤ E (6/5) / (E 0 + E (6/5)) := by positivity
  simp only [Kernel.dynamicCvar, hk]
  norm_num [sortAsc, List.insertionSort, List.orderedInsert, pyMean, hw]
  intro h
  simp at h

/-- Value of the plain tail-mean CVaR of `superkernel_zdl.py` on the stored
losses `[0, 1]` at `alpha = 0.95`: the mean of the top-5% tail of the sorted
raw losses, which is exactly `1`. -/
lemma zdl_cvar_pair :
    ZKernel.dynamicCvar { ZKernel.init with losses := [0, 1] } (19/20) = 1 := by
  norm_num [ZKernel.dynamicCvar, sortAsc, List.insertionSort, List.orderedInsert]
  simp

/-- C2: the two tail-risk implementations are not numerically equivalent:
with the stored losses `[0, 1]`, `alpha = 0.95` and the same `lam = 1.2` on
both sides, `Superkernel.dynamic_cvar` (exponential tilting before sorting
weighted losses) and `SuperkernelZDL.dynamic_cvar` (plain tail mean of the
sorted raw losses) return different values — for every positive exponential
function. -/
theorem c2_cvar_implementations_inequivalent (E : ℚ → ℚ)
    (h0 : 0 < E 0) (h1 : 0 < E (6/5)) :
    Kernel.dynamicCvar E { Kernel.init with losses := [0, 1] } [0, 1] (19/20) ≠
      ZKernel.dynamicCvar { ZKernel.init with losses := [0, 1] } (19/20) := by
  rw [main_cvar_pair E _ rfl h0 h1, zdl_cvar_pair]
  have ht : 0 < E 0 + E (6/5) := by linarith
  have hlt : E (6/5) / (E 0 + E (6/5)) < 1 := by
    rw [div_lt_one ht]
    linarith
  intro hcontra
  have : E (6/5) / (E 0 + E (6/5)) / 2 < 1 := by linarith
  exact absurd hcontra (ne_of_lt this)

/-- Witness for C2 at a concrete positive stand-in for the exponential. -/
theorem c2_cvar_implementations_inequivalent_witness :
    0 < expStub 0 ∧ 0 < expStub (6/5) ∧
    Kernel.dynamicCvar expStub { Kernel.init with losses := [0, 1] } [0, 1] (19/20) ≠
      ZKernel.dynamicCvar { ZKernel.init with losses := [0, 1] } (19/20) :=
  ⟨by norm_num [expStub], by norm_num [expStub],
    c2_cvar_implementations_inequivalent expStub (by norm_num [expStub])
      (by norm_num [expStub])⟩

/-- The fire scenario: snapshots with omega `0.500000` then `0.500600` one
second apart trigger (rate `0.0006 > 0`, gain `0.0006 ≥ 0.0005`). -/
lemma fire_eval : triggerNeeded (1/2000) fireHist = true := by
  norm_num [triggerNeeded, computeDOmegaDt, omegaGain, fireHist, List.getLast?, List.dropLast]

/-- The no-fire scenario: snapshots with omega `0.500000` then `0.500300`
one second apart do not trigger (gain `0.0003 < 0.0005`). -/
lemma nofire_eval : triggerNeeded (1/2000) noFireHist = false := by
  norm_num [triggerNeeded, computeDOmegaDt, omegaGain, noFireHist, List.getLast?, List.dropLast]

/-- C4: in a control-loop cycle whose post-record history holds at least two
snapshots, the external trigger fires exactly when the computed rate
(`_compute_d_omega_dt`, which is 0 on a non-positive time delta) is strictly
positive and the omega gain is at least `min_omega_gain`; in particular,
with `min_omega_gain = 0.0005`, omegas `0.500000 → 0.500600` one second
apart fire and `0.500000 → 0.500300` do not. -/
theorem c4_trigger_iff_rate_and_gain (g : ℚ) (h : List Snap) (_hlen : 2 ≤ h.length) :
    (triggerNeeded g h = true ↔ 0 < computeDOmegaDt h ∧ g ≤ omegaGain h) ∧
    triggerNeeded (1/2000) fireHist = true ∧
    triggerNeeded (1/2000) noFireHist = false := by
  refine ⟨?_, fire_eval, nofire_eval⟩
  unfold triggerNeeded
  by_cases hd : computeDOmegaDt h ≤ 0
  · rw [if_pos hd]
    simp [not_lt.mpr hd]
  · push_neg at hd
    rw [if_neg (not_le.mpr hd)]
    simp [hd]

/-- Witness for C4, applied at the concrete two-snapshot fire scenario. -/
theorem c4_trigger_iff_rate_and_gain_witness :
    2 ≤ fireHist.length ∧
    ((triggerNeeded (1/2000) fireHist = true ↔
        0 < computeDOmegaDt fireHist ∧ 1/2000 ≤ omegaGain fireHist) ∧
      triggerNeeded (1/2000) fireHist = true ∧
      triggerNeeded (1/2000) noFireHist = false) :=
  ⟨by norm_num [fireHist],
    c4_trigger_iff_rate_and_gain (1/2000) fireHist (by norm_num [fireHist])⟩

/-- C9: exceptions raised inside a control-loop cycle never terminate the
loop.  For any sequence of `running`-flag reads and any two assignments of
which cycles raise, the loop executes exactly the same number of cycles
(the catch-all `except` makes body failures invisible to the loop
condition), and within any observation bound the loop has ended only if the
`running` flag was read as false — i.e. only after an explicit `stop()`
cleared it. -/
theorem c9_exceptions_never_end_loop (flag fails fails' : ℕ → Bool) (fuel i : ℕ) :
    (loopTrace flag fails fuel i).length = (loopTrace flag fails' fuel i).length ∧
    (loopTrace flag fails fuel i).length ≤ fuel ∧
    ((loopTrace flag fails fuel i).length = fuel ∨
      flag (i + (loopTrace flag fails fuel i).length) = false) := by
  induction fuel generalizing i with
  | zero => simp [loopTrace]
  | succ n ih =>
    simp only [loopTrace]
    by_cases hf : flag i
    · rw [if_pos hf, if_pos hf]
      obtain ⟨e1, e2, e3⟩ := ih (i + 1)
      refine ⟨by simp [e1], by simp [Nat.succ_le_succ e2], ?_⟩
      rcases e3 with h | h
      · left
        simp [h]
      · right
        have harith : i + ((loopTrace flag fails n (i + 1)).length + 1) =
            (i + 1) + (loopTrace flag fails n (i + 1)).length := by omega
        rw [List.length_cons, harith]
        exact h
    · rw [if_neg hf, if_neg hf]
      exact ⟨rfl, by simp, Or.inr (by simpa using hf)⟩
